import Mathlib

/-!
Verification of the `expresso` compression codec
(`src/expresso/compression.py`) against its specification.

Shallow embedding conventions:
* `np.ndarray` of float64 becomes `NDArray`: a shape together with the
  row-major flat data (`skymap.flatten()` is the `data` field), values as `ℚ`.
* Python exceptions become `Except PyError`; the module's single
  `CompressionError` class carries its message string, and the numpy
  errors that escape uncaught (`IndexError`, `ValueError`) are separate
  constructors.
* `np.argsort(np.abs(flat_map))` returns a permutation of the positions
  along which the absolute values are non-decreasing; numpy's default
  introsort is unstable on ties for sort runs longer than 16 elements, so
  the order among equal magnitudes is not a contract of the program. The
  model's `argsort` fixes one concrete admissible permutation — the stable
  one, i.e. the unique sort by the lexicographic key (|value|, index) —
  which coincides with numpy exactly on arrays of at most 16 elements
  (numpy sorts those by stable insertion sort), in particular on every
  concrete array appearing in this file. Theorems that quantify over all
  arrays use only the sortedness-and-permutation facts shared by every
  admissible argsort, never the model's tie order.
* byte sizes: float64 elements and int64 indices are 8 bytes each, so
  `nbytes` of a length-n vector is `8 * n`.
-/

unseal Rat.mul Rat.add Rat.sub Rat.inv

deriving instance DecidableEq for Except

/-- Python-level errors that the compression module can raise.
`compressionError` is the module's own `CompressionError(msg)`;
`indexError` and `valueError` are numpy exceptions escaping uncaught. -/
inductive PyError where
  | compressionError (msg : String)
  | indexError
  | valueError
deriving DecidableEq, Repr

/-- A numpy float64 array: shape plus row-major flat data. -/
structure NDArray where
  shape : List Nat
  data : List ℚ
  hlen : data.length = shape.prod

/-- The compressed-data dictionary built by `_compress_wavelet`
(keys `method`, `shape`, `indices`, `values`, `compression_ratio`,
`original_size`, `compressed_size`). -/
structure Envelope where
  method : String
  shape : List Nat
  indices : List Nat
  values : List ℚ
  compression_ratio : ℚ
  original_size : Nat
  compressed_size : Nat
deriving DecidableEq, Repr

/-- Ascending comparison of positions `i j` of `xs` by the lexicographic
key (absolute value at the position, position): the order realised by a
stable ascending `argsort` over absolute values. -/
def keyLE (xs : List ℚ) (i j : Nat) : Prop :=
  |xs.getD i 0| < |xs.getD j 0| ∨ (|xs.getD i 0| = |xs.getD j 0| ∧ i ≤ j)

/-- Strict version of `keyLE`: position `j` ranks strictly below `i`. -/
def keyLt (xs : List ℚ) (j i : Nat) : Prop :=
  |xs.getD j 0| < |xs.getD i 0| ∨ (|xs.getD j 0| = |xs.getD i 0| ∧ j < i)

instance keyLE.decidableRel (xs : List ℚ) : DecidableRel (keyLE xs) := fun i j => by
  unfold keyLE; exact inferInstance

instance keyLE.isTotal (xs : List ℚ) : IsTotal Nat (keyLE xs) where
  total i j := by
    rcases lt_trichotomy |xs.getD i 0| |xs.getD j 0| with h | h | h
    · exact Or.inl (Or.inl h)
    · rcases Nat.le_total i j with hij | hij
      · exact Or.inl (Or.inr ⟨h, hij⟩)
      · exact Or.inr (Or.inr ⟨h.symm, hij⟩)
    · exact Or.inr (Or.inl h)

instance keyLE.isTrans (xs : List ℚ) : IsTrans Nat (keyLE xs) where
  trans a b c hab hbc := by
    rcases hab with hab | ⟨hab, hab'⟩
    · rcases hbc with hbc | ⟨hbc, _⟩
      · exact Or.inl (hab.trans hbc)
      · exact Or.inl (hbc ▸ hab)
    · rcases hbc with hbc | ⟨hbc, hbc'⟩
      · exact Or.inl (hab ▸ hbc)
      · exact Or.inr ⟨hab.trans hbc, hab'.trans hbc'⟩

/-- `np.argsort(np.abs(xs))`: a permutation of the positions `0, …, len-1`
along which the absolute values are non-decreasing. The program's tie
order is implementation-defined (unstable beyond 16-element sort runs);
this model fixes the stable admissible permutation — the unique sort by
the key (|value|, position) — which matches numpy exactly on the small
arrays used concretely below. Universal theorems use only the
permutation and non-decreasing-magnitude facts true of every admissible
argsort. -/
def argsort (xs : List ℚ) : List Nat :=
  List.insertionSort (keyLE xs) (List.range xs.length)

/-- `n_keep = max(1, int(len(flat_map) * compression_ratio))` from
`_compress_wavelet` (`int` truncates toward zero; on the nonnegative
products arising here that is the floor). -/
def nKeep (n : Nat) (ratio : ℚ) : Nat :=
  max 1 (Int.toNat ⌊(n : ℚ) * ratio⌋)

/-- `np.argsort(np.abs(flat_map))[-n_keep:]`: the last `k` entries of the
ascending argsort, i.e. the retained positions in ascending magnitude
(rank) order. Python's `l[-k:]` with `k ≥ 1` is `drop (length - k)`,
also when `k > length` (Nat subtraction truncates at 0). -/
def kept (xs : List ℚ) (k : Nat) : List Nat :=
  (argsort xs).drop (xs.length - k)

/-- `_compress_wavelet(skymap, compression_ratio)`: keeps the `n_keep`
largest-magnitude flat coefficients and records them with their positions.
`original_size` is `skymap.nbytes` (8 bytes per float64 element) and
`compressed_size` is `indices.nbytes + compressed_values.nbytes`
(8-byte int64 indices plus 8-byte float64 values). -/
def compress_wavelet (skymap : NDArray) (ratio : ℚ) : Envelope :=
  { method := "wavelet"
    shape := skymap.shape
    indices := kept skymap.data (nKeep skymap.data.length ratio)
    values := (kept skymap.data (nKeep skymap.data.length ratio)).map
      (fun i => skymap.data.getD i 0)
    compression_ratio := ratio
    original_size := 8 * skymap.shape.prod
    compressed_size :=
      8 * (kept skymap.data (nKeep skymap.data.length ratio)).length +
      8 * ((kept skymap.data (nKeep skymap.data.length ratio)).map
        (fun i => skymap.data.getD i 0)).length }

/-- `_compress_pca`: emits a `UserWarning` (a side effect outside this
embedding) and falls back to `_compress_wavelet`. -/
def compress_pca (skymap : NDArray) (ratio : ℚ) : Envelope :=
  compress_wavelet skymap ratio

/-- `_compress_svd`: emits a `UserWarning` and falls back to
`_compress_wavelet`. -/
def compress_svd (skymap : NDArray) (ratio : ℚ) : Envelope :=
  compress_wavelet skymap ratio

/-- `compress_skymap(skymap, method, compression_ratio)`. The
`isinstance(skymap, np.ndarray)` check is vacuous in the typed embedding.
There is no emptiness check in the source. -/
def compress_skymap (skymap : NDArray) (method : String) (ratio : ℚ) :
    Except PyError Envelope :=
  if ¬ (0 < ratio ∧ ratio < 1) then
    .error (.compressionError "Compression ratio must be between 0 and 1")
  else if method = "wavelet" then .ok (compress_wavelet skymap ratio)
  else if method = "pca" then .ok (compress_pca skymap ratio)
  else if method = "svd" then .ok (compress_svd skymap ratio)
  else .error (.compressionError ("Unknown compression method: " ++ method))

/-- Sequential scatter `flat[i] = v` over a list of (index, value) pairs;
out-of-range `List.set` is a no-op, but callers check bounds first. -/
def setAll (flat : List ℚ) (pairs : List (Nat × ℚ)) : List ℚ :=
  pairs.foldl (fun acc p => acc.set p.1 p.2) flat

theorem length_setAll (pairs : List (Nat × ℚ)) (flat : List ℚ) :
    (setAll flat pairs).length = flat.length := by
  induction pairs generalizing flat with
  | nil => rfl
  | cons p ps ih => simpa [setAll] using (ih (flat.set p.1 p.2)).trans (by simp)

/-- `_decompress_wavelet(compressed_data)`: allocates
`np.zeros(np.prod(shape))` then runs the fancy assignment
`flat_map[indices] = values` and reshapes. numpy sets up the assignment
by broadcasting the value array against the indexing result first: when
`len(values)` is neither `len(indices)` nor 1 it raises `ValueError`
before looking at any index; otherwise an index outside
`[0, prod(shape))` raises `IndexError`; otherwise the values are
scattered, a singleton value broadcasting to every index. The module
performs no validation of its own. -/
def decompress_wavelet (e : Envelope) : Except PyError NDArray :=
  if e.values.length = e.indices.length then
    if ∀ i ∈ e.indices, i < e.shape.prod then
      .ok { shape := e.shape
            data := setAll (List.replicate e.shape.prod 0) (e.indices.zip e.values)
            hlen := by simp [length_setAll] }
    else .error .indexError
  else if e.values.length = 1 then
    if ∀ i ∈ e.indices, i < e.shape.prod then
      .ok { shape := e.shape
            data := setAll (List.replicate e.shape.prod 0)
              (e.indices.map (fun i => (i, e.values.headD 0)))
            hlen := by simp [length_setAll] }
    else .error .indexError
  else .error .valueError

/-- `_decompress_pca`: warns, then delegates to `_decompress_wavelet`. -/
def decompress_pca (e : Envelope) : Except PyError NDArray :=
  decompress_wavelet e

/-- `_decompress_svd`: warns, then delegates to `_decompress_wavelet`. -/
def decompress_svd (e : Envelope) : Except PyError NDArray :=
  decompress_wavelet e

/-- `decompress_skymap(compressed_data)`: dispatches on the envelope's
`method` tag. The `method is None` branch cannot arise here because
`Envelope.method` is a total field. -/
def decompress_skymap (e : Envelope) : Except PyError NDArray :=
  if e.method = "wavelet" then decompress_wavelet e
  else if e.method = "pca" then decompress_pca e
  else if e.method = "svd" then decompress_svd e
  else .error (.compressionError ("Unknown compression method: " ++ e.method))

/-- The dictionary returned by `get_compression_info`. -/
structure CompressionInfo where
  method : String
  original_size_bytes : Nat
  compressed_size_bytes : Nat
  compression_ratio : ℚ
  space_saved_percent : ℚ
  shape : List Nat
deriving DecidableEq, Repr

/-- `get_compression_info(compressed_data)`. -/
def get_compression_info (e : Envelope) : CompressionInfo :=
  { method := e.method
    original_size_bytes := e.original_size
    compressed_size_bytes := e.compressed_size
    compression_ratio :=
      if 0 < e.original_size then (e.compressed_size : ℚ) / (e.original_size : ℚ) else 0
    space_saved_percent :=
      (1 - (if 0 < e.original_size then (e.compressed_size : ℚ) / (e.original_size : ℚ) else 0)) * 100
    shape := e.shape }

/-- The coefficient selection described by the spec's words
(CoefficientSelector, §4.2), for comparison with the code: rank by
absolute magnitude descending, break ties by ascending original index,
take the top `k`, and emit the chosen indices in ascending order.
Modelled from the spec for a refinement comparison only. -/
def specSelect (xs : List ℚ) (k : Nat) : List Nat :=
  ((List.insertionSort
      (fun i j => |xs.getD j 0| < |xs.getD i 0| ∨ (|xs.getD j 0| = |xs.getD i 0| ∧ i ≤ j))
      (List.range xs.length)).take k).insertionSort (· ≤ ·)

/-! ### Basic facts about the embedded operations -/

theorem argsort_perm (xs : List ℚ) : List.Perm (argsort xs) (List.range xs.length) :=
  List.perm_insertionSort _ _

theorem argsort_length (xs : List ℚ) : (argsort xs).length = xs.length := by
  rw [(argsort_perm xs).length_eq, List.length_range]

theorem argsort_pairwise (xs : List ℚ) : (argsort xs).Pairwise (keyLE xs) :=
  List.sorted_insertionSort _ _

theorem argsort_nodup (xs : List ℚ) : (argsort xs).Nodup :=
  (argsort_perm xs).nodup_iff.2 (List.nodup_range _)

theorem mem_argsort (xs : List ℚ) (i : Nat) : i ∈ argsort xs ↔ i < xs.length := by
  rw [(argsort_perm xs).mem_iff, List.mem_range]

theorem kept_sublist (xs : List ℚ) (k : Nat) : List.Sublist (kept xs k) (argsort xs) :=
  List.drop_sublist _ _

theorem kept_nodup (xs : List ℚ) (k : Nat) : (kept xs k).Nodup :=
  (argsort_nodup xs).sublist (kept_sublist xs k)

theorem kept_pairwise (xs : List ℚ) (k : Nat) : (kept xs k).Pairwise (keyLE xs) :=
  (argsort_pairwise xs).sublist (kept_sublist xs k)

theorem kept_mem_lt {xs : List ℚ} {k i : Nat} (h : i ∈ kept xs k) : i < xs.length :=
  (mem_argsort xs i).1 (List.mem_of_mem_drop h)

theorem kept_length {xs : List ℚ} {k : Nat} (hk : k ≤ xs.length) :
    (kept xs k).length = k := by
  unfold kept
  rw [List.length_drop, argsort_length]
  omega

/-- Every retained position strictly dominates every dropped position in the
(|value|, position) order: the kept set is the top of the ranking, with ties
resolved toward the larger position. -/
theorem kept_beats (xs : List ℚ) (k : Nat) :
    ∀ i ∈ kept xs k, ∀ j < xs.length, j ∉ kept xs k → keyLt xs j i := by
  intro i hi j hj hjn
  have hj1 : j ∈ argsort xs := (mem_argsort xs j).2 hj
  have hjt : j ∈ (argsort xs).take (xs.length - k) := by
    have hsplit : (argsort xs).take (xs.length - k) ++ (argsort xs).drop (xs.length - k) =
        argsort xs := List.take_append_drop _ _
    rcases List.mem_append.1 (by rw [hsplit]; exact hj1) with h | h
    · exact h
    · exact absurd h hjn
  have hpw : List.Pairwise (keyLE xs)
      ((argsort xs).take (xs.length - k) ++ (argsort xs).drop (xs.length - k)) := by
    rw [List.take_append_drop]
    exact argsort_pairwise xs
  have hle : keyLE xs j i := (List.pairwise_append.1 hpw).2.2 j hjt i hi
  have hne : j ≠ i := fun h => hjn (h ▸ hi)
  rcases hle with h | ⟨h1, h2⟩
  · exact Or.inl h
  · exact Or.inr ⟨h1, lt_of_le_of_ne h2 hne⟩

/-- Tie-order-independent consequence of `kept_beats`: every kept
position's magnitude is at least every dropped position's. This holds
for the last `k` entries of any argsort along which magnitudes are
non-decreasing, whatever its tie order. -/
theorem kept_mag_beats (xs : List ℚ) (k : Nat) :
    ∀ i ∈ kept xs k, ∀ j < xs.length, j ∉ kept xs k →
      |xs.getD j 0| ≤ |xs.getD i 0| := by
  intro i hi j hj hjn
  rcases kept_beats xs k i hi j hj hjn with h | ⟨h, _⟩
  · exact le_of_lt h
  · exact le_of_eq h

/-- Tie-order-independent consequence of `kept_pairwise`: along the kept
list the magnitudes are non-decreasing, as along the suffix of any
admissible argsort. -/
theorem kept_pairwise_mag (xs : List ℚ) (k : Nat) :
    (kept xs k).Pairwise (fun i j => |xs.getD i 0| ≤ |xs.getD j 0|) :=
  (kept_pairwise xs k).imp (fun h => h.elim le_of_lt (fun h2 => le_of_eq h2.1))

theorem one_le_nKeep (n : Nat) (r : ℚ) : 1 ≤ nKeep n r :=
  le_max_left _ _

theorem nKeep_le {n : Nat} {r : ℚ} (hn : 1 ≤ n) (hr : r < 1) : nKeep n r ≤ n := by
  have hfl : ⌊(n : ℚ) * r⌋ < (n : ℤ) := by
    rw [Int.floor_lt]
    push_cast
    exact mul_lt_of_lt_one_right (by exact_mod_cast hn) hr
  have h2 : Int.toNat ⌊(n : ℚ) * r⌋ ≤ n := Int.toNat_le.2 (by omega)
  exact max_le hn h2

/-- `compress_skymap` on a valid ratio and any of the three registered
method names returns the wavelet (magnitude-truncation) envelope. -/
theorem compress_skymap_run (A : NDArray) (m : String) (r : ℚ)
    (h0 : 0 < r) (h1 : r < 1) (hm : m = "wavelet" ∨ m = "pca" ∨ m = "svd") :
    compress_skymap A m r = .ok (compress_wavelet A r) := by
  rcases hm with rfl | rfl | rfl <;>
    (unfold compress_skymap; rw [if_neg (not_not_intro ⟨h0, h1⟩)]) <;> rfl

/-! ### Concrete arrays used as witnesses -/

/-- The spec's worked example `A = [5, -1, 3, 0, 2]`. -/
def A5 : NDArray := ⟨[5], [5, -1, 3, 0, 2], by decide⟩

/-- A two-element array of equal magnitudes, separating the tie-break rules. -/
def A2 : NDArray := ⟨[2], [1, 1], by decide⟩

/-- A one-element array. -/
def oneArr : NDArray := ⟨[1], [1], by decide⟩

/-- A zero-element array (shape `(0,)`). -/
def emptyArr : NDArray := ⟨[0], [], by decide⟩

/-! ### Claim theorems -/

/-- Claim C4 (code behavior at the failing input): `compress_skymap` with
`method="pca"` or `"svd"` does not raise; it warns and returns the wavelet
envelope, silently substituting the baseline variant's behavior. -/
theorem C4_code_behavior :
    compress_skymap oneArr "pca" (1/2) = .ok (compress_wavelet oneArr (1/2)) ∧
    compress_skymap oneArr "svd" (1/2) = .ok (compress_wavelet oneArr (1/2)) ∧
    (compress_wavelet oneArr (1/2)).method = "wavelet" := by
  refine ⟨?_, ?_, rfl⟩ <;> decide

/-- Claim C7 (counterexample): `compress_skymap` on a zero-element array
does not raise `InvalidArgument`; it returns a complete envelope with
empty index and value lists. -/
theorem C7_counterexample :
    compress_skymap emptyArr "wavelet" (1/2) =
      .ok ⟨"wavelet", [0], [], [], 1/2, 0, 0⟩ := by
  decide

/-- Claim C7 (amended): for every zero-element array and every ratio in
(0,1), `compress_skymap` raises nothing and returns an envelope whose
`indices` and `values` are both empty. -/
theorem C7_amended (A : NDArray) (r : ℚ) (hA : A.data.length = 0)
    (h0 : 0 < r) (h1 : r < 1) :
    ∃ e, compress_skymap A "wavelet" r = .ok e ∧ e.indices = [] ∧ e.values = [] := by
  have hs : argsort A.data = [] := by
    have := argsort_length A.data
    rw [hA] at this
    exact List.length_eq_zero.1 this
  have hkept : kept A.data (nKeep A.data.length r) = [] := by
    unfold kept
    rw [hs, List.drop_nil]
  refine ⟨compress_wavelet A r,
    compress_skymap_run A "wavelet" r h0 h1 (Or.inl rfl), ?_, ?_⟩
  · exact hkept
  · show (kept A.data (nKeep A.data.length r)).map _ = []
    rw [hkept]
    rfl

/-- Witness for C7_amended at the concrete empty array and ratio 1/2. -/
theorem C7_witness :
    ∃ e, compress_skymap emptyArr "wavelet" (1/2) = .ok e ∧
      e.indices = [] ∧ e.values = [] :=
  C7_amended emptyArr (1/2) (by decide) (by decide) (by decide)

/-- Claim C8: a ratio outside (0,1) makes `compress_skymap` raise the
ratio `CompressionError` (the spec's InvalidArgument) before anything
else, and an unknown method name with a valid ratio raises the
unknown-method `CompressionError` (the spec's UnsupportedMethod). -/
theorem C8_validation (A : NDArray) (m : String) (r : ℚ) :
    (¬ (0 < r ∧ r < 1) →
      compress_skymap A m r =
        .error (.compressionError "Compression ratio must be between 0 and 1")) ∧
    (0 < r → r < 1 → m ≠ "wavelet" → m ≠ "pca" → m ≠ "svd" →
      compress_skymap A m r =
        .error (.compressionError ("Unknown compression method: " ++ m))) := by
  constructor
  · intro h
    unfold compress_skymap
    rw [if_pos h]
  · intro h0 h1 hw hp hs
    unfold compress_skymap
    rw [if_neg (not_not_intro ⟨h0, h1⟩), if_neg hw, if_neg hp, if_neg hs]

/-- Witness for C8_validation: ratio 0, 1 and -1/10 each raise the ratio
error, and method "bogus" raises the unknown-method error. -/
theorem C8_witness :
    compress_skymap oneArr "wavelet" 0 =
      .error (.compressionError "Compression ratio must be between 0 and 1") ∧
    compress_skymap oneArr "wavelet" 1 =
      .error (.compressionError "Compression ratio must be between 0 and 1") ∧
    compress_skymap oneArr "wavelet" (-1/10) =
      .error (.compressionError "Compression ratio must be between 0 and 1") ∧
    compress_skymap oneArr "bogus" (1/2) =
      .error (.compressionError ("Unknown compression method: " ++ "bogus")) :=
  ⟨(C8_validation oneArr "wavelet" 0).1 (by decide),
   (C8_validation oneArr "wavelet" 1).1 (by decide),
   (C8_validation oneArr "wavelet" (-1/10)).1 (by decide),
   (C8_validation oneArr "bogus" (1/2)).2 (by decide) (by decide)
     (by decide) (by decide) (by decide)⟩

/-- Claim C10: requesting "pca" or "svd" yields exactly the envelope the
"wavelet" request yields; its `method` field is "wavelet", so a later
`decompress_skymap` dispatches to the wavelet path, and the requested
method name is not recoverable from the envelope. -/
theorem C10_fallback (A : NDArray) (r : ℚ) (h0 : 0 < r) (h1 : r < 1) :
    compress_skymap A "pca" r = compress_skymap A "wavelet" r ∧
    compress_skymap A "svd" r = compress_skymap A "wavelet" r ∧
    ∃ e, compress_skymap A "pca" r = .ok e ∧ e.method = "wavelet" ∧
      decompress_skymap e = decompress_wavelet e := by
  have hp := compress_skymap_run A "pca" r h0 h1 (Or.inr (Or.inl rfl))
  have hw := compress_skymap_run A "wavelet" r h0 h1 (Or.inl rfl)
  have hs := compress_skymap_run A "svd" r h0 h1 (Or.inr (Or.inr rfl))
  refine ⟨hp.trans hw.symm, hs.trans hw.symm, compress_wavelet A r, hp, rfl, ?_⟩
  unfold decompress_skymap
  rw [if_pos (show (compress_wavelet A r).method = "wavelet" from rfl)]

/-- Witness for C10_fallback at the spec's example array and ratio 2/5. -/
theorem C10_witness :
    compress_skymap A5 "pca" (2/5) = compress_skymap A5 "wavelet" (2/5) ∧
    compress_skymap A5 "svd" (2/5) = compress_skymap A5 "wavelet" (2/5) ∧
    ∃ e, compress_skymap A5 "pca" (2/5) = .ok e ∧ e.method = "wavelet" ∧
      decompress_skymap e = decompress_wavelet e :=
  C10_fallback A5 (2/5) (by decide) (by decide)

/-- Claim C6 (counterexample): `decompress_skymap` on an envelope with an
index past the end raises numpy's `IndexError`, not the module's own
exception (the spec's DecodeError); an envelope whose `values` is a
broadcastable singleton shorter than `indices` raises nothing at all;
and when the lengths cannot broadcast, numpy's shape check fires first
and raises `ValueError` even though an index is also out of range. -/
theorem C6_counterexample :
    decompress_skymap ⟨"wavelet", [2], [5], [3], 1/2, 0, 0⟩ = .error .indexError ∧
    (decompress_skymap ⟨"wavelet", [2], [0, 1], [7], 1/2, 0, 0⟩).map NDArray.data =
      .ok [7, 7] ∧
    decompress_skymap ⟨"wavelet", [2], [5, 0], [1, 2, 3], 1/2, 0, 0⟩ =
      .error .valueError := by
  refine ⟨?_, ?_, ?_⟩
  · unfold decompress_skymap decompress_wavelet
    rw [if_pos rfl, if_pos (by decide), if_neg (by decide)]
  · unfold decompress_skymap decompress_wavelet
    rw [if_pos rfl, if_neg (by decide), if_pos (by decide), if_pos (by decide)]
    rfl
  · unfold decompress_skymap decompress_wavelet
    rw [if_pos rfl, if_neg (by decide), if_neg (by decide)]

/-- Claim C6 (amended): a malformed wavelet envelope makes
`decompress_skymap` fail with numpy's errors, never the module's
`CompressionError` (the spec's DecodeError): when the lengths broadcast
(`len(values)` equal to `len(indices)` or to 1), an index ≥
`product(shape)` raises `IndexError`; when they do not broadcast, the
shape check fires first and raises `ValueError` regardless of the
indices. -/
theorem C6_amended (e : Envelope) (hm : e.method = "wavelet") :
    ((e.values.length = e.indices.length ∨ e.values.length = 1) →
      (∃ i ∈ e.indices, e.shape.prod ≤ i) →
      decompress_skymap e = .error .indexError) ∧
    (e.values.length ≠ e.indices.length → e.values.length ≠ 1 →
      decompress_skymap e = .error .valueError) := by
  constructor
  · intro hbc hbad
    have hnall : ¬ ∀ i ∈ e.indices, i < e.shape.prod := by
      intro hall
      obtain ⟨i, hi, hle⟩ := hbad
      exact absurd (hall i hi) (not_lt.2 hle)
    unfold decompress_skymap
    rw [if_pos hm]
    unfold decompress_wavelet
    rcases hbc with hbc | hbc
    · rw [if_pos hbc, if_neg hnall]
    · by_cases heq : e.values.length = e.indices.length
      · rw [if_pos heq, if_neg hnall]
      · rw [if_neg heq, if_pos hbc, if_neg hnall]
  · intro hne h1
    unfold decompress_skymap
    rw [if_pos hm]
    unfold decompress_wavelet
    rw [if_neg hne, if_neg h1]

/-- Witness for C6_amended: an out-of-range index with matching lengths
raises IndexError, and non-broadcastable lengths raise ValueError. -/
theorem C6_witness :
    decompress_skymap ⟨"wavelet", [3], [7], [1], 1/2, 0, 0⟩ = .error .indexError ∧
    decompress_skymap ⟨"wavelet", [2], [5, 0], [1, 2, 3], 1/2, 0, 0⟩ =
      .error .valueError :=
  ⟨(C6_amended ⟨"wavelet", [3], [7], [1], 1/2, 0, 0⟩ rfl).1 (Or.inl rfl)
      ⟨7, by decide, by decide⟩,
   (C6_amended ⟨"wavelet", [2], [5, 0], [1, 2, 3], 1/2, 0, 0⟩ rfl).2
      (by decide) (by decide)⟩

/-- Success of the wavelet decompression on every envelope that the
wavelet compression produces, with the shape carried through. -/
theorem decompress_wavelet_compress (A : NDArray) (r : ℚ) :
    ∃ B, decompress_wavelet (compress_wavelet A r) = .ok B ∧ B.shape = A.shape := by
  have hidx : ∀ i ∈ (compress_wavelet A r).indices, i < (compress_wavelet A r).shape.prod := by
    intro i hi
    show i < A.shape.prod
    rw [← A.hlen]
    exact kept_mem_lt hi
  have hlen2 : (compress_wavelet A r).values.length = (compress_wavelet A r).indices.length := by
    show ((kept A.data _).map _).length = (kept A.data _).length
    rw [List.length_map]
  unfold decompress_wavelet
  rw [if_pos hlen2, if_pos hidx]
  exact ⟨_, rfl, rfl⟩

/-- Claim C2: for every non-empty array, every registered method name and
every ratio in (0,1), decompressing the compressed envelope succeeds and
returns an array of the same shape. -/
theorem C2_shape (A : NDArray) (m : String) (r : ℚ)
    (hm : m = "wavelet" ∨ m = "pca" ∨ m = "svd")
    (hA : 1 ≤ A.data.length) (h0 : 0 < r) (h1 : r < 1) :
    ∃ e B, compress_skymap A m r = .ok e ∧ decompress_skymap e = .ok B ∧
      B.shape = A.shape := by
  obtain ⟨B, hB, hBs⟩ := decompress_wavelet_compress A r
  refine ⟨compress_wavelet A r, B, compress_skymap_run A m r h0 h1 hm, ?_, hBs⟩
  unfold decompress_skymap
  rw [if_pos (show (compress_wavelet A r).method = "wavelet" from rfl)]
  exact hB

/-- Witness for C2_shape: the example array, method "pca", ratio 2/5. -/
theorem C2_witness :
    ∃ e B, compress_skymap A5 "pca" (2/5) = .ok e ∧ decompress_skymap e = .ok B ∧
      B.shape = A5.shape :=
  C2_shape A5 "pca" (2/5) (Or.inr (Or.inl rfl)) (by decide) (by decide) (by decide)

/-- Claim C3: on a non-empty array of N elements and any registered
method, the envelope holds exactly `nKeep N r = max(1, floor(N*r))`
indices and as many values. -/
theorem C3_envelope_size (A : NDArray) (m : String) (r : ℚ)
    (hm : m = "wavelet" ∨ m = "pca" ∨ m = "svd")
    (hA : 1 ≤ A.data.length) (h0 : 0 < r) (h1 : r < 1) :
    ∃ e, compress_skymap A m r = .ok e ∧
      e.indices.length = nKeep A.data.length r ∧
      e.values.length = nKeep A.data.length r := by
  refine ⟨compress_wavelet A r, compress_skymap_run A m r h0 h1 hm, ?_, ?_⟩
  · exact kept_length (nKeep_le hA h1)
  · show ((kept A.data _).map _).length = _
    rw [List.length_map]
    exact kept_length (nKeep_le hA h1)

/-- The 1000-element array of the spec's size example. -/
def A1000 : NDArray :=
  ⟨[1000], List.replicate 1000 1, by rw [List.length_replicate]; rfl⟩

theorem A1000_len : A1000.data.length = 1000 := by
  rw [show A1000.data = List.replicate 1000 1 from rfl, List.length_replicate]

/-- Witness for C3_envelope_size: N = 1000 and r = 1/10 give exactly 100
indices and 100 values. -/
theorem C3_witness :
    (∃ e, compress_skymap A1000 "wavelet" (1/10) = .ok e ∧
      e.indices.length = nKeep A1000.data.length (1/10) ∧
      e.values.length = nKeep A1000.data.length (1/10)) ∧
    nKeep A1000.data.length (1/10) = 100 :=
  ⟨C3_envelope_size A1000 "wavelet" (1/10) (Or.inl rfl) (by simp [A1000_len])
      (by decide) (by decide),
   by rw [A1000_len]; decide⟩

/-- Claim C1 (counterexample): on `[1, 1]` with ratio 2/5 (`n_keep = 1`),
the code keeps index 1, while selection with ties broken by ascending
original index — the claim's rule, `specSelect` — keeps index 0. -/
theorem C1_counterexample :
    (compress_skymap A2 "wavelet" (2/5)).map Envelope.indices = .ok [1] ∧
    specSelect A2.data (nKeep A2.data.length (2/5)) = [0] ∧
    ([1] : List Nat) ≠ [0] := by
  refine ⟨by decide, by decide, by decide⟩

/-- Claim C1 (amended): the baseline keeps exactly `n_keep` distinct
positions forming a top-`n_keep` selection by absolute value — every
kept value's magnitude is at least every dropped value's — paired with
their original signed values. Which positions are kept among equal
magnitudes at the selection boundary is the sort's choice (numpy's
unstable introsort), not the ascending-index rule. -/
theorem C1_amended (A : NDArray) (r : ℚ) (hA : 1 ≤ A.data.length)
    (h0 : 0 < r) (h1 : r < 1) :
    ∃ e, compress_skymap A "wavelet" r = .ok e ∧
      e.indices.length = nKeep A.data.length r ∧
      e.indices.Nodup ∧
      (∀ i ∈ e.indices, i < A.data.length) ∧
      (∀ i ∈ e.indices, ∀ j < A.data.length, j ∉ e.indices →
        |A.data.getD j 0| ≤ |A.data.getD i 0|) ∧
      e.values = e.indices.map (fun i => A.data.getD i 0) := by
  exact ⟨compress_wavelet A r,
    compress_skymap_run A "wavelet" r h0 h1 (Or.inl rfl),
    kept_length (nKeep_le hA h1),
    kept_nodup _ _,
    fun i hi => kept_mem_lt hi,
    kept_mag_beats _ _,
    rfl⟩

/-- Witness for C1_amended at the spec's worked example
`A = [5, -1, 3, 0, 2]`, ratio 2/5 (magnitudes all distinct, so the kept
set is unique): additionally, the retained positions are 2 and 0
(magnitudes 3 and 5) and decompression reconstructs `[5, 0, 3, 0, 0]`. -/
theorem C1_witness :
    (∃ e, compress_skymap A5 "wavelet" (2/5) = .ok e ∧
      e.indices.length = nKeep A5.data.length (2/5) ∧
      e.indices.Nodup ∧
      (∀ i ∈ e.indices, i < A5.data.length) ∧
      (∀ i ∈ e.indices, ∀ j < A5.data.length, j ∉ e.indices →
        |A5.data.getD j 0| ≤ |A5.data.getD i 0|) ∧
      e.values = e.indices.map (fun i => A5.data.getD i 0)) ∧
    (compress_skymap A5 "wavelet" (2/5)).map Envelope.indices = .ok [2, 0] ∧
    ((compress_skymap A5 "wavelet" (2/5)).bind decompress_skymap).map NDArray.data =
      .ok [5, 0, 3, 0, 0] :=
  ⟨C1_amended A5 (2/5) (by decide) (by decide) (by decide), by decide, by decide⟩

/-- Claim C5 (counterexample): the envelope of the spec's worked example
stores its indices as `[2, 0]` — ascending magnitude (rank) order, not
strictly ascending index order. -/
theorem C5_counterexample :
    (compress_skymap A5 "wavelet" (2/5)).map Envelope.indices = .ok [2, 0] ∧
    ¬ List.Pairwise (· < ·) [2, 0] := by
  refine ⟨by decide, by decide⟩

/-- Claim C5 (amended): envelope indices are unique, in bijection with
values (equal lengths) and all below `product(shape)`, but the sequence
is ordered by non-decreasing magnitude of the paired values (the
argsort's rank order) rather than strictly ascending by index. -/
theorem C5_amended (A : NDArray) (r : ℚ) (hA : 1 ≤ A.data.length)
    (h0 : 0 < r) (h1 : r < 1) :
    ∃ e, compress_skymap A "wavelet" r = .ok e ∧
      e.indices.Nodup ∧
      e.indices.length = e.values.length ∧
      (∀ i ∈ e.indices, i < e.shape.prod) ∧
      e.indices.Pairwise (fun i j => |A.data.getD i 0| ≤ |A.data.getD j 0|) := by
  refine ⟨compress_wavelet A r,
    compress_skymap_run A "wavelet" r h0 h1 (Or.inl rfl),
    kept_nodup _ _, ?_, ?_, kept_pairwise_mag _ _⟩
  · show (kept A.data _).length = ((kept A.data _).map _).length
    rw [List.length_map]
  · intro i hi
    show i < A.shape.prod
    rw [← A.hlen]
    exact kept_mem_lt hi

/-- Witness for C5_amended at the example array and ratio 2/5. -/
theorem C5_witness :
    ∃ e, compress_skymap A5 "wavelet" (2/5) = .ok e ∧
      e.indices.Nodup ∧
      e.indices.length = e.values.length ∧
      (∀ i ∈ e.indices, i < e.shape.prod) ∧
      e.indices.Pairwise (fun i j => |A5.data.getD i 0| ≤ |A5.data.getD j 0|) :=
  C5_amended A5 (2/5) (by decide) (by decide) (by decide)

/-- Claim C9 (counterexample): compressing a single-element array at any
valid ratio stores 16 bytes against 8 original bytes, so `summarize`
reports `compression_ratio = 2`, outside `[0, 1]`. -/
theorem C9_counterexample :
    (compress_skymap oneArr "wavelet" (1/2)).map
      (fun e => (get_compression_info e).compression_ratio) = .ok 2 ∧
    ¬ ((2 : ℚ) ≤ 1) := by
  refine ⟨by decide, by decide⟩

/-- Claim C9 (amended): for an envelope from a non-empty array,
`original_size_bytes > 0` holds and `compression_ratio` equals
`16·n_keep / (8·N)`, which always lies in `[0, 2]` — and exceeds 1
exactly when `2·n_keep > N`. -/
theorem C9_amended (A : NDArray) (r : ℚ) (hA : 1 ≤ A.data.length)
    (h0 : 0 < r) (h1 : r < 1) :
    ∃ e, compress_skymap A "wavelet" r = .ok e ∧
      0 < e.original_size ∧
      (get_compression_info e).compression_ratio =
        (16 * nKeep A.data.length r : ℚ) / (8 * A.data.length : ℚ) ∧
      0 ≤ (get_compression_info e).compression_ratio ∧
      (get_compression_info e).compression_ratio ≤ 2 := by
  have hkN : nKeep A.data.length r ≤ A.data.length := nKeep_le hA h1
  have hklen : (kept A.data (nKeep A.data.length r)).length = nKeep A.data.length r :=
    kept_length hkN
  have hcs : (compress_wavelet A r).compressed_size = 16 * nKeep A.data.length r := by
    show 8 * (kept A.data _).length + 8 * ((kept A.data _).map _).length = _
    rw [List.length_map, hklen]
    ring
  have hos : (compress_wavelet A r).original_size = 8 * A.data.length := by
    show 8 * A.shape.prod = 8 * A.data.length
    rw [A.hlen]
  have hpos : 0 < (compress_wavelet A r).original_size := by
    rw [hos]
    omega
  have hratio : (get_compression_info (compress_wavelet A r)).compression_ratio =
      (16 * nKeep A.data.length r : ℚ) / (8 * A.data.length : ℚ) := by
    show (if 0 < (compress_wavelet A r).original_size then
        ((compress_wavelet A r).compressed_size : ℚ) /
          ((compress_wavelet A r).original_size : ℚ) else 0) = _
    rw [if_pos hpos, hcs, hos]
    push_cast
    ring
  refine ⟨compress_wavelet A r,
    compress_skymap_run A "wavelet" r h0 h1 (Or.inl rfl), hpos, hratio, ?_, ?_⟩
  · rw [hratio]
    positivity
  · rw [hratio]
    rw [div_le_iff (by positivity)]
    have : (nKeep A.data.length r : ℚ) ≤ (A.data.length : ℚ) := by
      exact_mod_cast hkN
    nlinarith

/-- Witness for C9_amended at the example array and ratio 2/5. -/
theorem C9_witness :
    ∃ e, compress_skymap A5 "wavelet" (2/5) = .ok e ∧
      0 < e.original_size ∧
      (get_compression_info e).compression_ratio =
        (16 * nKeep A5.data.length (2/5) : ℚ) / (8 * A5.data.length : ℚ) ∧
      0 ≤ (get_compression_info e).compression_ratio ∧
      (get_compression_info e).compression_ratio ≤ 2 :=
  C9_amended A5 (2/5) (by decide) (by decide) (by decide)
